import Mathlib

/-!
Verification of the join-and-aggregate pipeline in
src/statistic_model_success_order_rate.py.

The embedding models the five core components: the lookup loader
(load_model_mappings), the hasher (generate_md5, a full MD5
implementation over the UTF-8 bytes of the identifier), the matcher
(process_phone_data), the aggregator (count_data_by_model) and the rate
calculator (calculate_order_success_rate), together with the Python
string and dict primitives they rely on.

Conventions of the embedding:
- A text file is a list of logical lines (no newline characters).
- A missing file is `none`; file contents are `some lines`.
- Python dicts are association lists with Python's semantics: an update
  of an existing key keeps its position, a new key is appended; iteration
  order is insertion order.
- `pandas.DataFrame.sort_values` on a unique key column is modelled by
  insertion sort with the lexicographic (code-point) order on strings,
  which agrees with Python string comparison; since the key column is
  unique at both sort sites, stability is irrelevant and any correct
  sort produces the same list.
- Python floats are modelled by rationals: the claims are about the
  exact ratio value, and the code computes `a / b` on nonnegative
  integers before any formatting.
-/

namespace ModelStats

/-! ### Python string primitives -/

/-- Code points removed by Python's `str.strip()` (the code points `c`
with `c.isspace()` true: ASCII whitespace, the file separators
0x1c-0x1f, next-line, no-break space and the Unicode space separators). -/
def pySpaceCodes : List Nat :=
  [0x09, 0x0a, 0x0b, 0x0c, 0x0d, 0x1c, 0x1d, 0x1e, 0x1f, 0x20, 0x85, 0xa0,
   0x1680, 0x2000, 0x2001, 0x2002, 0x2003, 0x2004, 0x2005, 0x2006, 0x2007,
   0x2008, 0x2009, 0x200a, 0x2028, 0x2029, 0x202f, 0x205f, 0x3000]

def isPySpace (c : Char) : Bool :=
  pySpaceCodes.contains c.toNat

/-- Python `line.strip()`: remove trailing whitespace, then leading
whitespace (the two removals commute; composing them in either order is
Python's behaviour). -/
def pyStrip (l : List Char) : List Char :=
  ((l.reverse.dropWhile isPySpace).reverse).dropWhile isPySpace

/-- `str.strip()` lifted to `String`. -/
def pyStripS (s : String) : String :=
  String.mk (pyStrip s.data)

/-- Python `s.split('\t')` with an explicit separator: splits at every
tab, never collapses, and yields `[""]` on the empty string. -/
def pySplitTab : List Char → List (List Char)
  | [] => [[]]
  | c :: rest =>
    if c = '\t' then [] :: pySplitTab rest
    else
      match pySplitTab rest with
      | [] => [[c]]
      | f :: gs => (c :: f) :: gs

/-! ### Python dict primitives -/

/-- Python `d[k] = v`: update the existing entry in place (keeping its
position), else append the new entry at the end. -/
def pyDictInsert {β : Type} : List (String × β) → String → β → List (String × β)
  | [], k, v => [(k, v)]
  | p :: ps, k, v =>
    if p.1 = k then (p.1, v) :: ps else p :: pyDictInsert ps k v

/-- Python `d.get(k)` as an `Option`. -/
def dictLookup {β : Type} : List (String × β) → String → Option β
  | [], _ => none
  | p :: ps, k => if p.1 = k then some p.2 else dictLookup ps k

/-- One step of `dict(pairs)`: insert the next pair. -/
def pyDictOfStep {β : Type} (d : List (String × β)) (p : String × β) :
    List (String × β) :=
  pyDictInsert d p.1 p.2

/-- Python `dict(pairs)` (as in `dict(zip(models, counts))`): insert the
pairs left to right. -/
def pyDictOf {β : Type} (l : List (String × β)) : List (String × β) :=
  l.foldl pyDictOfStep []

/-! ### MD5 (the `hashlib.md5(...).hexdigest()` call in `generate_md5`) -/

/-- The 64 MD5 sine-derived round constants (RFC 1321). -/
def md5K : List Nat :=
  [0xd76aa478, 0xe8c7b756, 0x242070db, 0xc1bdceee,
   0xf57c0faf, 0x4787c62a, 0xa8304613, 0xfd469501,
   0x698098d8, 0x8b44f7af, 0xffff5bb1, 0x895cd7be,
   0x6b901122, 0xfd987193, 0xa679438e, 0x49b40821,
   0xf61e2562, 0xc040b340, 0x265e5a51, 0xe9b6c7aa,
   0xd62f105d, 0x02441453, 0xd8a1e681, 0xe7d3fbc8,
   0x21e1cde6, 0xc33707d6, 0xf4d50d87, 0x455a14ed,
   0xa9e3e905, 0xfcefa3f8, 0x676f02d9, 0x8d2a4c8a,
   0xfffa3942, 0x8771f681, 0x6d9d6122, 0xfde5380c,
   0xa4beea44, 0x4bdecfa9, 0xf6bb4b60, 0xbebfbc70,
   0x289b7ec6, 0xeaa127fa, 0xd4ef3085, 0x04881d05,
   0xd9d4d039, 0xe6db99e5, 0x1fa27cf8, 0xc4ac5665,
   0xf4292244, 0x432aff97, 0xab9423a7, 0xfc93a039,
   0x655b59c3, 0x8f0ccc92, 0xffeff47d, 0x85845dd1,
   0x6fa87e4f, 0xfe2ce6e0, 0xa3014314, 0x4e0811a1,
   0xf7537e82, 0xbd3af235, 0x2ad7d2bb, 0xeb86d391]

/-- The 64 MD5 per-round left-rotation amounts. -/
def md5S : List Nat :=
  [7, 12, 17, 22, 7, 12, 17, 22, 7, 12, 17, 22, 7, 12, 17, 22,
   5, 9, 14, 20, 5, 9, 14, 20, 5, 9, 14, 20, 5, 9, 14, 20,
   4, 11, 16, 23, 4, 11, 16, 23, 4, 11, 16, 23, 4, 11, 16, 23,
   6, 10, 15, 21, 6, 10, 15, 21, 6, 10, 15, 21, 6, 10, 15, 21]

/-- 32-bit left rotation (inputs below `2 ^ 32`). -/
def md5rotl (x n : Nat) : Nat :=
  ((x <<< n) ||| (x >>> (32 - n))) % 2 ^ 32

/-- 32-bit bitwise complement. -/
def md5not (x : Nat) : Nat :=
  x ^^^ 0xffffffff

/-- The MD5 nonlinear function for round `i`. -/
def md5F (i b c d : Nat) : Nat :=
  if i < 16 then (b &&& c) ||| (md5not b &&& d)
  else if i < 32 then (d &&& b) ||| (md5not d &&& c)
  else if i < 48 then b ^^^ c ^^^ d
  else c ^^^ (b ||| md5not d)

/-- The MD5 message-word index for round `i`. -/
def md5G (i : Nat) : Nat :=
  if i < 16 then i
  else if i < 32 then (5 * i + 1) % 16
  else if i < 48 then (3 * i + 5) % 16
  else (7 * i) % 16

/-- One MD5 round on the state `(a, b, c, d)` with message words `m`. -/
def md5Round (m : List Nat) (st : Nat × Nat × Nat × Nat) (i : Nat) :
    Nat × Nat × Nat × Nat :=
  let (a, b, c, d) := st
  let f := (md5F i b c d + a + md5K.getD i 0 + m.getD (md5G i) 0) % 2 ^ 32
  (d, (b + md5rotl f (md5S.getD i 0)) % 2 ^ 32, b, c)

/-- Process one 512-bit chunk (given as 16 little-endian 32-bit words). -/
def md5Chunk (st : Nat × Nat × Nat × Nat) (m : List Nat) :
    Nat × Nat × Nat × Nat :=
  let (a0, b0, c0, d0) := st
  let (a, b, c, d) := (List.range 64).foldl (md5Round m) (a0, b0, c0, d0)
  ((a0 + a) % 2 ^ 32, (b0 + b) % 2 ^ 32, (c0 + c) % 2 ^ 32, (d0 + d) % 2 ^ 32)

/-- The `n` low-order bytes of `x`, little-endian. -/
def toBytesLE (n x : Nat) : List Nat :=
  (List.range n).map (fun i => (x >>> (8 * i)) % 256)

/-- Word `j` of a 64-byte chunk, assembled little-endian. -/
def toWordLE (chunk : List Nat) (j : Nat) : Nat :=
  chunk.getD (4 * j) 0 + (chunk.getD (4 * j + 1) 0 <<< 8) +
    (chunk.getD (4 * j + 2) 0 <<< 16) + (chunk.getD (4 * j + 3) 0 <<< 24)

/-- MD5 padding: a 0x80 byte, zeros up to 56 mod 64, then the bit length
modulo `2 ^ 64`, little-endian. -/
def md5Pad (msg : List Nat) : List Nat :=
  msg ++ 0x80 :: (List.replicate ((119 - msg.length % 64) % 64) 0 ++
    toBytesLE 8 (8 * msg.length))

/-- The 16-byte MD5 digest of a byte sequence. -/
def md5Digest (msg : List Nat) : List Nat :=
  let padded := md5Pad msg
  let final := (List.range (padded.length / 64)).foldl
    (fun st i =>
      md5Chunk st ((List.range 16).map (toWordLE ((padded.drop (64 * i)).take 64))))
    (0x67452301, 0xefcdab89, 0x98badcfe, 0x10325476)
  toBytesLE 4 final.1 ++ toBytesLE 4 final.2.1 ++ toBytesLE 4 final.2.2.1 ++
    toBytesLE 4 final.2.2.2

/-- Lowercase hexadecimal digit for a value below 16. -/
def hexDigit (n : Nat) : Char :=
  if n < 10 then Char.ofNat (48 + n) else Char.ofNat (87 + n)

/-- Lowercase hexadecimal rendering of a byte sequence, two digits per
byte, high nibble first (Python's `hexdigest()`). -/
def toHexChars (bytes : List Nat) : List Char :=
  bytes.foldr (fun b acc => hexDigit (b / 16 % 16) :: hexDigit (b % 16) :: acc) []

/-- The sixteen lowercase hexadecimal digits. -/
def hexDigitChars : List Char :=
  "0123456789abcdef".data

/-- UTF-8 encoding of one scalar value (`str.encode('utf-8')`). -/
def utf8Encode (c : Char) : List Nat :=
  let v := c.toNat
  if v < 0x80 then [v]
  else if v < 0x800 then
    [0xc0 ||| (v >>> 6), 0x80 ||| (v &&& 0x3f)]
  else if v < 0x10000 then
    [0xe0 ||| (v >>> 12), 0x80 ||| ((v >>> 6) &&& 0x3f), 0x80 ||| (v &&& 0x3f)]
  else
    [0xf0 ||| (v >>> 18), 0x80 ||| ((v >>> 12) &&& 0x3f),
     0x80 ||| ((v >>> 6) &&& 0x3f), 0x80 ||| (v &&& 0x3f)]

/-- UTF-8 bytes of a string. -/
def utf8Bytes (s : String) : List Nat :=
  s.data.foldr (fun c acc => utf8Encode c ++ acc) []

/-- `generate_md5` (source lines 176-178): the lowercase-hex MD5 digest
of the UTF-8 bytes of the identifier, taken verbatim. -/
def generate_md5 (phone_number : String) : String :=
  String.mk (toHexChars (md5Digest (utf8Bytes phone_number)))

/-! ### The five pipeline components -/

/-- One line of the lookup file, as parsed by `load_model_mappings`
(source lines 269-273): `line.strip().split('\t')`; an entry
`(parts[0], parts[1])` when at least two fields result, else nothing. -/
def parseMappingLine (line : String) : Option (String × String) :=
  match pySplitTab (pyStrip line.data) with
  | k :: m :: _ => some (String.mk k, String.mk m)
  | _ => none

/-- The body of the `for line in f` loop of `load_model_mappings`:
write `parts[0] -> parts[1]` when the line has at least two fields,
else leave the dict unchanged. -/
def loadStep (d : List (String × String)) (line : String) :
    List (String × String) :=
  match parseMappingLine line with
  | some (k, v) => pyDictInsert d k v
  | none => d

/-- `load_model_mappings` (source lines 259-279): `none` models a
missing base-data file, where the `FileNotFoundError` handler returns
the empty dict. Otherwise the header line is skipped (`next(f)`; an
entirely empty file is outside the claims) and each remaining line with
at least two tab-separated fields writes `parts[0] -> parts[1]` into the
dict, later lines overwriting earlier ones. -/
def load_model_mappings : Option (List String) → List (String × String)
  | none => []
  | some lines => lines.tail.foldl loadStep []

/-- One row of the per-model match file: `phone_number, phone_md5,
model_name` (source line 322). -/
structure MatchedRecord where
  phone_number : String
  phone_md5 : String
  model_name : String
deriving DecidableEq, Repr

/-- The body of the first loop of `process_phone_data`: strip the line
and collect it when nonempty. -/
def collectPhonesStep (acc : List String) (line : String) : List String :=
  let p := pyStripS line
  if p ≠ "" then acc ++ [p] else acc

/-- The body of the matching loop of `process_phone_data`: hash the
phone and emit the record with the looked-up model (empty when the hash
is absent from the mapping). -/
def emitRecordStep (md5_model_map : List (String × String))
    (out : List MatchedRecord) (phone : String) : List MatchedRecord :=
  let h := generate_md5 phone
  out ++ [⟨phone, h, (dictLookup md5_model_map h).getD ""⟩]

/-- `process_phone_data` (source lines 281-330), matching phase: the
first loop collects `line.strip()` for each line, skipping those that
are empty after stripping; the second loop emits, per phone in order,
the record `(phone, md5, md5_model_map.get(md5, ""))`. -/
def process_phone_data (lines : List String)
    (md5_model_map : List (String × String)) : List MatchedRecord :=
  let phone_numbers := lines.foldl collectPhonesStep []
  phone_numbers.foldl (emitRecordStep md5_model_map) []

instance decRelKeyLE : DecidableRel (fun a b : String × Nat => a.1 ≤ b.1) :=
  fun a b => inferInstanceAs (Decidable (a.1 ≤ b.1))

instance totalKeyLE : IsTotal (String × Nat) (fun a b => a.1 ≤ b.1) :=
  ⟨fun a b => le_total a.1 b.1⟩

instance transKeyLE : IsTrans (String × Nat) (fun a b => a.1 ≤ b.1) :=
  ⟨fun _ _ _ h1 h2 => le_trans h1 h2⟩

/-- `count_data_by_model` (source lines 332-379): keep the records whose
model name is nonempty, count occurrences per distinct model
(`value_counts`), and sort by model name ascending (`sort_values`; the
models are distinct after `value_counts`, so the intermediate ordering
is irrelevant to the sorted output). -/
def count_data_by_model (records : List MatchedRecord) : List (String × Nat) :=
  let models := (records.map (fun r => r.model_name)).filter
    (fun m => decide (m ≠ ""))
  let counts := models.dedup.map (fun m => (m, models.count m))
  List.insertionSort (fun a b : String × Nat => a.1 ≤ b.1) counts

/-- One row of the final report (source lines 404-409); the rate is the
exact ratio value computed before percentage formatting. -/
structure RateRow where
  model_name : String
  a_intention_count : Nat
  call_connect_count : Nat
  order_success_rate : ℚ
deriving DecidableEq, Repr

instance decRelRowLE :
    DecidableRel (fun r1 r2 : RateRow => r1.model_name ≤ r2.model_name) :=
  fun a b => inferInstanceAs (Decidable (a.model_name ≤ b.model_name))

instance totalRowLE :
    IsTotal RateRow (fun r1 r2 => r1.model_name ≤ r2.model_name) :=
  ⟨fun a b => le_total a.model_name b.model_name⟩

instance transRowLE :
    IsTrans RateRow (fun r1 r2 => r1.model_name ≤ r2.model_name) :=
  ⟨fun _ _ _ h1 h2 => le_trans h1 h2⟩

/-- The body of the `for model_name, call_connect_count in
call_connect_dict.items()` loop (source lines 397-409): intention count
defaulted to 0, rate `intention / connect` when the connect count is
positive, else 0. -/
def rateRowOf (a_intention_dict : List (String × Nat)) (p : String × Nat) :
    RateRow :=
  let cnt := (dictLookup a_intention_dict p.1).getD 0
  ⟨p.1, cnt, p.2, if p.2 > 0 then (cnt : ℚ) / (p.2 : ℚ) else 0⟩

/-- `calculate_order_success_rate` (source lines 381-440): build dicts
from the two count tables, iterate over the call-connect dict in
insertion order emitting one row per model, then sort the rows by model
name ascending. -/
def calculate_order_success_rate (call_connect a_intention : List (String × Nat)) :
    List RateRow :=
  let a_intention_dict := pyDictOf a_intention
  let call_connect_dict := pyDictOf call_connect
  let results := call_connect_dict.map (rateRowOf a_intention_dict)
  List.insertionSort (fun r1 r2 : RateRow => r1.model_name ≤ r2.model_name) results

/-- Everything a successful run of one file pair produces. -/
structure RunOutputs where
  call_connect_records : List MatchedRecord
  a_intention_records : List MatchedRecord
  call_connect_counts : List (String × Nat)
  a_intention_counts : List (String × Nat)
  report : List RateRow
deriving DecidableEq, Repr

/-- `run_full_process` together with the pair loop of
`process_multiple_files` (source lines 442-556): a missing base-data
file (`none`) is skipped before any step runs (line 534; the
`FileNotFoundError` handler in `load_model_mappings` plus the
`if not md5_model_map` guard at lines 300-302 abort the pair the same
way), and an empty mapping likewise aborts before any counting; on the
success path the two sources run through matching, counting and the
rate calculation. -/
def run_full_process (base_data : Option (List String))
    (call_connect_lines a_intention_lines : List String) : Option RunOutputs :=
  match base_data with
  | none => none
  | some _ =>
    let m := load_model_mappings base_data
    if m = [] then none
    else
      let ccr := process_phone_data call_connect_lines m
      let air := process_phone_data a_intention_lines m
      let ccc := count_data_by_model ccr
      let aic := count_data_by_model air
      some ⟨ccr, air, ccc, aic, calculate_order_success_rate ccc aic⟩

/-! ### Sanity checks of the MD5 embedding against the RFC 1321 test
vectors (these validate that `generate_md5` computes genuine MD5). -/

theorem md5_vector_empty :
    generate_md5 "" = "d41d8cd98f00b204e9800998ecf8427e" := by decide

theorem md5_vector_abc :
    generate_md5 "abc" = "900150983cd24fb0d6963f7d28e17f72" := by decide

/-! ### Helper lemmas about the hex rendering -/

theorem hexDigit_mem (m : Nat) (h : m < 16) : hexDigit m ∈ hexDigitChars := by
  interval_cases m <;> decide

theorem length_toBytesLE (n x : Nat) : (toBytesLE n x).length = n := by
  simp [toBytesLE]

theorem length_md5Digest (msg : List Nat) : (md5Digest msg).length = 16 := by
  simp [md5Digest, length_toBytesLE]

theorem length_toHexChars (bytes : List Nat) :
    (toHexChars bytes).length = 2 * bytes.length := by
  induction bytes with
  | nil => rfl
  | cons b bs ih => simp only [toHexChars, List.foldr] at ih ⊢; simp [ih]; ring

theorem mem_toHexChars (bytes : List Nat) (c : Char) (h : c ∈ toHexChars bytes) :
    ∃ m, m < 16 ∧ c = hexDigit m := by
  induction bytes with
  | nil => cases h
  | cons b bs ih =>
    simp only [toHexChars, List.foldr, List.mem_cons] at h
    rcases h with h | h | h
    · exact ⟨b / 16 % 16, Nat.mod_lt _ (by omega), h⟩
    · exact ⟨b % 16, Nat.mod_lt _ (by omega), h⟩
    · exact ih h

/-- Claim C8: the hasher is the lowercase-hex MD5 digest of the UTF-8
bytes of the identifier taken verbatim; it is deterministic (equal
results on repeated calls) and its output is exactly 32 lowercase
hexadecimal characters. -/
theorem hasher_md5_lowercase_hex_deterministic (x : String) :
    generate_md5 x = generate_md5 x ∧
    generate_md5 x = String.mk (toHexChars (md5Digest (utf8Bytes x))) ∧
    (generate_md5 x).length = 32 ∧
    ∀ c ∈ (generate_md5 x).data, c ∈ hexDigitChars := by
  refine ⟨rfl, rfl, ?_, ?_⟩
  · show (toHexChars (md5Digest (utf8Bytes x))).length = 32
    rw [length_toHexChars, length_md5Digest]
  · intro c hc
    obtain ⟨m, hm, rfl⟩ := mem_toHexChars _ c hc
    exact hexDigit_mem m hm

/-- Witness for C8 at the identifier "111". -/
theorem hasher_md5_witness :
    generate_md5 "111" = generate_md5 "111" ∧
    generate_md5 "111" = String.mk (toHexChars (md5Digest (utf8Bytes "111"))) ∧
    (generate_md5 "111").length = 32 ∧
    ∀ c ∈ (generate_md5 "111").data, c ∈ hexDigitChars :=
  hasher_md5_lowercase_hex_deterministic "111"

/-- Claim C5: a missing base-data file (modelled as `none`) makes the
whole file pair fail: the lookup loader yields no usable mapping (the
`FileNotFoundError` handler returns the empty dict) and the run produces
no matched records, no frequency table and no report. -/
theorem missing_lookup_file_no_outputs (cl al : List String) :
    run_full_process none cl al = none ∧ load_model_mappings none = [] :=
  ⟨rfl, rfl⟩

/-! ### Helper lemmas about `pyStrip` and `pySplitTab` -/

theorem dropWhile_append_of_all {α : Type} (p : α → Bool) (a b : List α)
    (h : ∀ c ∈ a, p c = true) : (a ++ b).dropWhile p = b.dropWhile p := by
  induction a with
  | nil => rfl
  | cons x xs ih =>
    rw [List.cons_append, List.dropWhile_cons_of_pos (h x (by simp))]
    exact ih (fun c hc => h c (by simp [hc]))

theorem pyStrip_append_ws (xs ys : List Char)
    (h : ∀ c ∈ ys, isPySpace c = true) : pyStrip (xs ++ ys) = pyStrip xs := by
  unfold pyStrip
  rw [List.reverse_append,
    dropWhile_append_of_all _ _ _ (fun c hc => h c (List.mem_reverse.mp hc))]

theorem mem_pyStrip {c : Char} {l : List Char} (h : c ∈ pyStrip l) : c ∈ l := by
  unfold pyStrip at h
  have h1 := List.dropWhile_subset _ h
  rw [List.mem_reverse] at h1
  exact List.mem_reverse.mp (List.dropWhile_subset _ h1)

theorem splitTab_of_not_mem {l : List Char} (h : '\t' ∉ l) :
    pySplitTab l = [l] := by
  induction l with
  | nil => rfl
  | cons c rest ih =>
    have hc : ¬ c = '\t' := fun e => h (by simp [e])
    have hr : '\t' ∉ rest := fun m => h (by simp [m])
    simp [pySplitTab, hc, ih hr]

theorem parseMappingLine_none_of_no_tab (line : String)
    (h : '\t' ∉ pyStrip line.data) : parseMappingLine line = none := by
  simp only [parseMappingLine]
  rw [splitTab_of_not_mem h]

theorem dropWhile_bne_tab (l : List Char) (h : '\t' ∈ l) :
    ∃ t, l.dropWhile (fun c => c != '\t') = '\t' :: t := by
  induction l with
  | nil => cases h
  | cons c rest ih =>
    by_cases hc : c = '\t'
    · subst hc
      exact ⟨rest, by simp [List.dropWhile_cons]⟩
    · have hm : '\t' ∈ rest := by
        rcases List.mem_cons.mp h with h1 | h1
        · exact absurd h1.symm hc
        · exact h1
      obtain ⟨t, ht⟩ := ih hm
      exact ⟨t, by simp [List.dropWhile_cons, hc, ht]⟩

/-- Claim C10: because `load_model_mappings` strips the whole line
before splitting on tabs, a data line of the form `key<TAB>` or
`key<TAB><whitespace>` loses its trailing separator, is seen as a
single field and creates no entry; `key<TAB><TAB>extra` keeps its inner
tab and maps `key` to the empty-string model; and whenever every
character after the first tab is whitespace (in particular when there
is no tab), the line creates no entry, so an entry requires a
non-whitespace character after the first tab. -/
theorem strip_before_split_tab_boundary :
    (∀ (key trailing : List Char), '\t' ∉ key →
        (∀ c ∈ trailing, isPySpace c = true) →
        parseMappingLine (String.mk (key ++ '\t' :: trailing)) = none) ∧
    parseMappingLine "key\t\textra" = some ("key", "") ∧
    (∀ line : String,
        (∀ c ∈ (line.data.dropWhile (fun c => c != '\t')).tail,
          isPySpace c = true) →
        parseMappingLine line = none) := by
  have htabws : isPySpace '\t' = true := by decide
  refine ⟨?_, by decide, ?_⟩
  · intro key trailing hkey htrail
    apply parseMappingLine_none_of_no_tab
    have hall : ∀ c ∈ '\t' :: trailing, isPySpace c = true := by
      intro c hc
      rcases List.mem_cons.mp hc with rfl | hc
      · exact htabws
      · exact htrail c hc
    show '\t' ∉ pyStrip (key ++ '\t' :: trailing)
    rw [pyStrip_append_ws _ _ hall]
    exact fun hm => hkey (mem_pyStrip hm)
  · intro line hws
    apply parseMappingLine_none_of_no_tab
    by_cases htab : '\t' ∈ line.data
    · obtain ⟨t, ht⟩ := dropWhile_bne_tab _ htab
      rw [ht] at hws
      have hall : ∀ c ∈ '\t' :: t, isPySpace c = true := by
        intro c hc
        rcases List.mem_cons.mp hc with rfl | hc
        · exact htabws
        · exact hws c hc
      have hdecomp :
          line.data.takeWhile (fun c => c != '\t') ++ '\t' :: t = line.data := by
        rw [← ht]; exact List.takeWhile_append_dropWhile _ _
      have hstrip : pyStrip line.data =
          pyStrip (line.data.takeWhile (fun c => c != '\t')) := by
        conv_lhs => rw [← hdecomp]
        exact pyStrip_append_ws _ _ hall
      rw [hstrip]
      intro hm
      have := List.mem_takeWhile_imp (mem_pyStrip hm)
      simp at this
    · exact fun hm => htab (mem_pyStrip hm)

/-- Witness for C10: the line `key<TAB><SPACE>` creates no entry. -/
theorem strip_before_split_witness :
    ('\t' ∉ ("key".data : List Char)) ∧
    (∀ c ∈ [' '], isPySpace c = true) ∧
    parseMappingLine (String.mk ("key".data ++ '\t' :: [' '])) = none :=
  ⟨by decide, by decide,
    strip_before_split_tab_boundary.1 _ _ (by decide) (by decide)⟩

/-! ### Helper lemmas about the dict operations -/

theorem dictLookup_insert {β : Type} (d : List (String × β)) (k k' : String)
    (v : β) :
    dictLookup (pyDictInsert d k v) k' =
      if k = k' then some v else dictLookup d k' := by
  induction d with
  | nil => simp [pyDictInsert, dictLookup]
  | cons p ps ih =>
    by_cases h1 : p.1 = k
    · simp only [pyDictInsert, h1, if_pos rfl, dictLookup]
      split_ifs <;> simp_all
    · simp only [pyDictInsert, h1, if_neg h1, dictLookup, ih]
      split_ifs <;> simp_all

theorem dictLookup_append {β : Type} (xs ys : List (String × β)) (k : String) :
    dictLookup (xs ++ ys) k =
      match dictLookup xs k with
      | some v => some v
      | none => dictLookup ys k := by
  induction xs with
  | nil => simp [dictLookup]
  | cons p ps ih =>
    by_cases h : p.1 = k <;> simp [dictLookup, h, ih]

theorem dictLookup_loadStep_foldl (lines : List String)
    (d : List (String × String)) (k : String) :
    dictLookup (lines.foldl loadStep d) k =
      match dictLookup (lines.filterMap parseMappingLine).reverse k with
      | some v => some v
      | none => dictLookup d k := by
  induction lines generalizing d with
  | nil => simp [dictLookup]
  | cons line ls ih =>
    simp only [List.foldl_cons, List.filterMap_cons]
    cases hp : parseMappingLine line with
    | none => simp only [loadStep, hp]; rw [ih]
    | some e =>
      obtain ⟨k', v⟩ := e
      simp only [loadStep, hp, List.reverse_cons]
      rw [ih, dictLookup_append]
      cases dictLookup (ls.filterMap parseMappingLine).reverse k with
      | some w => rfl
      | none =>
        simp only [dictLookup, dictLookup_insert]
        split_ifs <;> rfl

/-- Claim C7: the loader skips the header line, parses each remaining
line into its first two tab-separated fields (fields beyond the second
ignored), skips lines with fewer than two fields, and on duplicate keys
the last write wins: a lookup in the final dict equals a lookup in the
reversed list of parsed entries. -/
theorem loader_header_fields_last_write_wins :
    (∀ (h1 h2 : String) (lines : List String),
        load_model_mappings (some (h1 :: lines)) =
          load_model_mappings (some (h2 :: lines))) ∧
    (∀ (line : String) (k m : List Char) (rest : List (List Char)),
        pySplitTab (pyStrip line.data) = k :: m :: rest →
        parseMappingLine line = some (String.mk k, String.mk m)) ∧
    (∀ line : String, (pySplitTab (pyStrip line.data)).length < 2 →
        parseMappingLine line = none) ∧
    (∀ (hdr : String) (lines : List String) (k : String),
        dictLookup (load_model_mappings (some (hdr :: lines))) k =
          dictLookup (lines.filterMap parseMappingLine).reverse k) := by
  refine ⟨fun h1 h2 lines => rfl, ?_, ?_, ?_⟩
  · intro line k m rest h
    simp only [parseMappingLine]
    rw [h]
  · intro line h
    simp only [parseMappingLine]
    cases hs : pySplitTab (pyStrip line.data) with
    | nil => rfl
    | cons a t =>
      cases t with
      | nil => rfl
      | cons b t2 => rw [hs] at h; simp at h; omega
  · intro hdr lines k
    show dictLookup (lines.foldl loadStep []) k = _
    rw [dictLookup_loadStep_foldl]
    cases dictLookup (lines.filterMap parseMappingLine).reverse k <;> rfl

/-- Witness for C7: a line with three fields maps its first field to
its second. -/
theorem loader_fields_witness :
    pySplitTab (pyStrip ("a\tb\tc".data)) = ["a".data, "b".data, "c".data] ∧
    parseMappingLine "a\tb\tc" = some ("a", "b") :=
  ⟨by decide,
    loader_header_fields_last_write_wins.2.1 "a\tb\tc" "a".data "b".data
      ["c".data] (by decide)⟩

/-! ### Helper lemmas about the matcher loops -/

theorem foldl_collectPhonesStep (lines : List String) (acc : List String) :
    lines.foldl collectPhonesStep acc =
      acc ++ (lines.map pyStripS).filter (fun p => decide (p ≠ "")) := by
  induction lines generalizing acc with
  | nil => simp
  | cons line ls ih =>
    rw [List.foldl_cons, ih]
    by_cases h : pyStripS line = "" <;>
      simp [collectPhonesStep, h]

theorem foldl_emitRecordStep (t : List (String × String))
    (phones : List String) (acc : List MatchedRecord) :
    phones.foldl (emitRecordStep t) acc =
      acc ++ phones.map
        (fun p =>
          ⟨p, generate_md5 p, (dictLookup t (generate_md5 p)).getD ""⟩) := by
  induction phones generalizing acc with
  | nil => simp
  | cons p ps ih =>
    rw [List.foldl_cons, ih]
    simp [emitRecordStep]

/-- Claim C3: the matcher strips each line, skips the lines that are
empty after stripping, and emits for each remaining line, in input
order, exactly one record carrying the line, its hash and the looked-up
model (the empty string when the hash is absent); duplicate identifiers
yield duplicate records. The second conjunct is the spec's concrete
join example with the real MD5 hashes. -/
theorem matcher_strip_skip_join_in_order :
    (∀ (lines : List String) (t : List (String × String)),
        process_phone_data lines t =
          ((lines.map pyStripS).filter (fun p => decide (p ≠ ""))).map
            (fun p =>
              ⟨p, generate_md5 p, (dictLookup t (generate_md5 p)).getD ""⟩)) ∧
    process_phone_data ["111", "222"] [(generate_md5 "111", "A")] =
      [⟨"111", generate_md5 "111", "A"⟩, ⟨"222", generate_md5 "222", ""⟩] ∧
    process_phone_data ["111", "111"] [(generate_md5 "111", "A")] =
      [⟨"111", generate_md5 "111", "A"⟩, ⟨"111", generate_md5 "111", "A"⟩] := by
  refine ⟨?_, by decide, by decide⟩
  intro lines t
  show (lines.foldl collectPhonesStep []).foldl (emitRecordStep t) [] = _
  rw [foldl_collectPhonesStep, foldl_emitRecordStep]
  simp

/-! ### Helper lemmas about `pyDictOf` (keys, nodup, identity on
well-formed tables) -/

theorem mem_keys_pyDictInsert {β : Type} (d : List (String × β))
    (k k' : String) (v : β) :
    k' ∈ (pyDictInsert d k v).map Prod.fst ↔
      k' ∈ d.map Prod.fst ∨ k' = k := by
  induction d with
  | nil => simp [pyDictInsert]
  | cons p ps ih =>
    by_cases h : p.1 = k <;>
      simp only [pyDictInsert, h, eq_self_iff_true, List.map_cons,
        List.mem_cons, ih, if_true, if_false, ite_true, ite_false] <;>
      tauto

theorem nodup_keys_pyDictInsert {β : Type} (d : List (String × β))
    (k : String) (v : β) (h : (d.map Prod.fst).Nodup) :
    ((pyDictInsert d k v).map Prod.fst).Nodup := by
  induction d with
  | nil => simp [pyDictInsert]
  | cons p ps ih =>
    simp only [List.map_cons, List.nodup_cons] at h
    by_cases h1 : p.1 = k
    · show ((if p.1 = k then (p.1, v) :: ps else p :: pyDictInsert ps k v).map
        Prod.fst).Nodup
      rw [if_pos h1]
      simp only [List.map_cons, List.nodup_cons]
      exact ⟨h.1, h.2⟩
    · show ((if p.1 = k then (p.1, v) :: ps else p :: pyDictInsert ps k v).map
        Prod.fst).Nodup
      rw [if_neg h1]
      simp only [List.map_cons, List.nodup_cons]
      refine ⟨fun hm => ?_, ih h.2⟩
      rcases (mem_keys_pyDictInsert ps k p.1 v).mp hm with hm | hm
      · exact h.1 hm
      · exact h1 hm

theorem nodup_keys_foldl_pyDictOfStep {β : Type} (l : List (String × β)) :
    ∀ d : List (String × β), (d.map Prod.fst).Nodup →
      ((l.foldl pyDictOfStep d).map Prod.fst).Nodup := by
  induction l with
  | nil => exact fun d h => h
  | cons p ps ih =>
    intro d h
    exact ih _ (nodup_keys_pyDictInsert d p.1 p.2 h)

theorem nodup_keys_pyDictOf {β : Type} (l : List (String × β)) :
    ((pyDictOf l).map Prod.fst).Nodup :=
  nodup_keys_foldl_pyDictOfStep l [] List.nodup_nil

theorem mem_keys_foldl_pyDictOfStep {β : Type} (l : List (String × β)) :
    ∀ (d : List (String × β)) (k : String),
      k ∈ (l.foldl pyDictOfStep d).map Prod.fst ↔
        k ∈ d.map Prod.fst ∨ k ∈ l.map Prod.fst := by
  induction l with
  | nil => simp
  | cons p ps ih =>
    intro d k
    rw [List.foldl_cons, ih]
    show k ∈ (pyDictInsert d p.1 p.2).map Prod.fst ∨ _ ↔ _
    rw [mem_keys_pyDictInsert]
    simp only [List.map_cons, List.mem_cons]
    tauto

theorem mem_keys_pyDictOf {β : Type} (l : List (String × β)) (k : String) :
    k ∈ (pyDictOf l).map Prod.fst ↔ k ∈ l.map Prod.fst := by
  rw [pyDictOf, mem_keys_foldl_pyDictOfStep]
  simp

theorem pyDictInsert_of_not_mem {β : Type} (d : List (String × β))
    (k : String) (v : β) (h : k ∉ d.map Prod.fst) :
    pyDictInsert d k v = d ++ [(k, v)] := by
  induction d with
  | nil => rfl
  | cons p ps ih =>
    simp only [List.map_cons, List.mem_cons] at h
    push_neg at h
    have hne : ¬ p.1 = k := fun e => h.1 e.symm
    show (if p.1 = k then (p.1, v) :: ps else p :: pyDictInsert ps k v) = _
    rw [if_neg hne, ih h.2, List.cons_append]

theorem foldl_pyDictOfStep_disjoint {β : Type} (l : List (String × β)) :
    ∀ d : List (String × β), (l.map Prod.fst).Nodup →
      (∀ p ∈ l, p.1 ∉ d.map Prod.fst) →
      l.foldl pyDictOfStep d = d ++ l.foldl pyDictOfStep [] := by
  induction l with
  | nil => simp
  | cons p ps ih =>
    intro d hnd hdisj
    simp only [List.map_cons, List.nodup_cons] at hnd
    have hstep : pyDictOfStep d p = d ++ [p] :=
      pyDictInsert_of_not_mem d p.1 p.2 (hdisj p (by simp))
    have hstep0 : pyDictOfStep ([] : List (String × β)) p = [p] := rfl
    have hside2 : ∀ q ∈ ps, q.1 ∉ ([p] : List (String × β)).map Prod.fst := by
      intro q hq hm
      simp only [List.map_cons, List.map_nil, List.mem_cons,
        List.not_mem_nil, or_false] at hm
      exact hnd.1 (hm ▸ List.mem_map_of_mem Prod.fst hq)
    have hside1 : ∀ q ∈ ps, q.1 ∉ (d ++ [p]).map Prod.fst := by
      intro q hq hm
      rw [List.map_append, List.mem_append] at hm
      rcases hm with hm | hm
      · exact hdisj q (List.mem_cons_of_mem p hq) hm
      · exact hside2 q hq hm
    rw [List.foldl_cons, List.foldl_cons, hstep, hstep0,
      ih (d ++ [p]) hnd.2 hside1, ih [p] hnd.2 hside2, List.append_assoc]

/-- On a table whose keys are already distinct (the FrequencyTable
invariant), `dict(pairs)` rebuilds exactly the table. -/
theorem pyDictOf_eq_self {β : Type} (l : List (String × β))
    (h : (l.map Prod.fst).Nodup) : pyDictOf l = l := by
  induction l with
  | nil => rfl
  | cons p ps ih =>
    simp only [List.map_cons, List.nodup_cons] at h
    show (p :: ps).foldl pyDictOfStep [] = p :: ps
    rw [List.foldl_cons]
    have hstep0 : pyDictOfStep ([] : List (String × β)) p = [p] := rfl
    rw [hstep0, foldl_pyDictOfStep_disjoint ps [p] h.2 ?_]
    · show [p] ++ pyDictOf ps = p :: ps
      rw [ih h.2]
      rfl
    · intro q hq hm
      simp only [List.map_cons, List.map_nil, List.mem_cons,
        List.not_mem_nil, or_false] at hm
      exact h.1 (hm ▸ List.mem_map_of_mem Prod.fst hq)

/-! ### Rate calculator theorems -/

/-- Claim C1: the final report has exactly one row per model of the
connect table and no others; models only in the intention table are
dropped (third conjunct: the spec's one-sided-join example). -/
theorem rate_report_models_from_connect_only (cc ai : List (String × Nat)) :
    ((calculate_order_success_rate cc ai).map
      (fun r : RateRow => r.model_name)).Nodup ∧
    (∀ m : String,
        m ∈ (calculate_order_success_rate cc ai).map
            (fun r : RateRow => r.model_name) ↔
          m ∈ cc.map Prod.fst) ∧
    (calculate_order_success_rate [("A", 5)] [("A", 2), ("B", 7)]).map
        (fun r : RateRow => r.model_name) = ["A"] := by
  have hcalc : calculate_order_success_rate cc ai =
      List.insertionSort (fun r1 r2 : RateRow => r1.model_name ≤ r2.model_name)
        ((pyDictOf cc).map (rateRowOf (pyDictOf ai))) := rfl
  have hperm :
      List.Perm
        ((calculate_order_success_rate cc ai).map
          (fun r : RateRow => r.model_name))
        ((pyDictOf cc).map Prod.fst) := by
    rw [hcalc]
    have h1 := (List.perm_insertionSort
      (fun r1 r2 : RateRow => r1.model_name ≤ r2.model_name)
      ((pyDictOf cc).map (rateRowOf (pyDictOf ai)))).map
      (fun r : RateRow => r.model_name)
    rw [List.map_map] at h1
    exact h1
  refine ⟨hperm.nodup_iff.mpr (nodup_keys_pyDictOf cc), fun m => ?_, by decide⟩
  rw [hperm.mem_iff, mem_keys_pyDictOf]

/-- Claim C2: every connect-table entry `(m, c)` yields a report row
with model `m`, the intention table's count for `m` defaulted to 0, the
connect count `c`, and rate `intention / connect` when `c` is positive,
else 0. -/
theorem rate_row_formula (cc ai : List (String × Nat)) (m : String) (c : Nat)
    (h1 : (cc.map Prod.fst).Nodup) (h2 : (ai.map Prod.fst).Nodup)
    (hm : (m, c) ∈ cc) :
    ∃ row ∈ calculate_order_success_rate cc ai,
      row.model_name = m ∧
      row.a_intention_count = (dictLookup ai m).getD 0 ∧
      row.call_connect_count = c ∧
      row.order_success_rate =
        if 0 < c then (((dictLookup ai m).getD 0 : ℚ) / (c : ℚ)) else 0 := by
  have hai : pyDictOf ai = ai := pyDictOf_eq_self ai h2
  have hcc : pyDictOf cc = cc := pyDictOf_eq_self cc h1
  refine ⟨rateRowOf (pyDictOf ai) (m, c), ?_, ?_, ?_, ?_, ?_⟩
  · show rateRowOf (pyDictOf ai) (m, c) ∈
      List.insertionSort (fun r1 r2 : RateRow => r1.model_name ≤ r2.model_name)
        ((pyDictOf cc).map (rateRowOf (pyDictOf ai)))
    rw [List.mem_insertionSort, hcc]
    exact List.mem_map_of_mem _ hm
  · rfl
  · show (dictLookup (pyDictOf ai) m).getD 0 = (dictLookup ai m).getD 0
    rw [hai]
  · rfl
  · show (if c > 0 then
        (((dictLookup (pyDictOf ai) m).getD 0 : ℚ) / (c : ℚ)) else 0) = _
    rw [hai]

/-- Witness for C2 at the spec's rate-formula example: connect
`[("A", 10)]`, intention `[("A", 3)]`. -/
theorem rate_row_formula_witness :
    ((([("A", 10)] : List (String × Nat)).map Prod.fst).Nodup) ∧
    ((([("A", 3)] : List (String × Nat)).map Prod.fst).Nodup) ∧
    ("A", 10) ∈ ([("A", 10)] : List (String × Nat)) ∧
    ∃ row ∈ calculate_order_success_rate [("A", 10)] [("A", 3)],
      row.model_name = "A" ∧
      row.a_intention_count = (dictLookup [("A", 3)] "A").getD 0 ∧
      row.call_connect_count = 10 ∧
      row.order_success_rate =
        if 0 < 10 then
          (((dictLookup [("A", 3)] "A").getD 0 : ℚ) / ((10 : Nat) : ℚ))
        else 0 :=
  ⟨by decide, by decide, by decide,
    rate_row_formula [("A", 10)] [("A", 3)] "A" 10 (by decide) (by decide)
      (by decide)⟩

/-! ### Helper lemmas about counting -/

theorem length_filter_eq_length_iff {α : Type} (p : α → Bool) (l : List α) :
    (l.filter p).length = l.length ↔ ∀ a ∈ l, p a = true := by
  induction l with
  | nil => simp
  | cons a l ih =>
    by_cases h : p a = true
    · rw [List.filter_cons, if_pos h]
      simp only [List.length_cons, List.forall_mem_cons, h, true_and,
        Nat.add_right_cancel_iff]
      exact ih
    · rw [List.filter_cons, if_neg h]
      have hle := List.length_filter_le p l
      constructor
      · intro he
        rw [List.length_cons] at he
        omega
      · intro hall
        exact absurd (hall a (List.mem_cons_self a l)) h

theorem sum_map_add_distrib {α : Type} (u : List α) (f g : α → Nat) :
    (u.map (fun x => f x + g x)).sum = (u.map f).sum + (u.map g).sum := by
  induction u with
  | nil => rfl
  | cons b u ih =>
    simp only [List.map_cons, List.sum_cons, ih]
    ring

theorem sum_map_indicator_of_not_mem {α : Type} [DecidableEq α] (u : List α)
    (a : α) (h : a ∉ u) :
    (u.map (fun m => if a = m then (1 : Nat) else 0)).sum = 0 := by
  apply List.sum_eq_zero
  intro x hx
  rcases List.mem_map.mp hx with ⟨m, hm, rfl⟩
  exact if_neg (fun e => h (by rw [e]; exact hm))

theorem sum_map_indicator_of_mem {α : Type} [DecidableEq α] (u : List α)
    (a : α) (hnd : u.Nodup) (ha : a ∈ u) :
    (u.map (fun m => if a = m then (1 : Nat) else 0)).sum = 1 := by
  induction u with
  | nil => cases ha
  | cons b u ih =>
    obtain ⟨hb, hu⟩ := List.nodup_cons.mp hnd
    rw [List.map_cons, List.sum_cons]
    rcases List.mem_cons.mp ha with rfl | ha2
    · rw [if_pos rfl, sum_map_indicator_of_not_mem u _ hb]
    · rw [if_neg (fun e => hb (by rw [← e]; exact ha2)), ih hu ha2]

theorem sum_map_count_eq {α : Type} [DecidableEq α] :
    ∀ (l u : List α), u.Nodup → (∀ x ∈ l, x ∈ u) →
      (u.map (fun m => l.count m)).sum = l.length := by
  intro l
  induction l with
  | nil =>
    intro u _ _
    apply List.sum_eq_zero
    intro x hx
    rcases List.mem_map.mp hx with ⟨m, _, rfl⟩
    exact List.count_nil m
  | cons a l ih =>
    intro u hnd hsub
    have h1 : (u.map (fun m => (a :: l).count m)).sum
        = (u.map (fun m => l.count m + if a = m then 1 else 0)).sum := by
      apply congrArg
      apply List.map_congr_left
      intro m _
      rw [List.count_cons]
      simp [beq_iff_eq]
    rw [h1, sum_map_add_distrib,
      ih u hnd (fun x hx => hsub x (List.mem_cons_of_mem a hx)),
      sum_map_indicator_of_mem u a hnd (hsub a (List.mem_cons_self a l)),
      List.length_cons]

/-- The per-model counts of a list partition its length. -/
theorem sum_map_count_dedup {α : Type} [DecidableEq α] (l : List α) :
    (l.dedup.map (fun m => l.count m)).sum = l.length :=
  sum_map_count_eq l l.dedup (List.nodup_dedup l)
    (fun _ hx => List.mem_dedup.mpr hx)

/-! ### Aggregator theorems -/

/-- Claim C4: the aggregator drops empty-model records, counts each
remaining model with duplicates, emits one entry per distinct non-empty
model (second conjunct: the spec's concrete aggregation example), and
an input with no non-empty model yields the empty table, not an
error. -/
theorem aggregator_counts_and_drops_empty :
    (∀ (records : List MatchedRecord) (m : String) (c : Nat),
        (m, c) ∈ count_data_by_model records ↔
          m ≠ "" ∧ 0 < c ∧
            c = (records.map (fun r : MatchedRecord => r.model_name)).count m) ∧
    count_data_by_model
        [⟨"p1", "h1", "A"⟩, ⟨"p2", "h2", "A"⟩, ⟨"p3", "h3", ""⟩] = [("A", 2)] ∧
    (∀ records : List MatchedRecord,
        (∀ r ∈ records, r.model_name = "") →
        count_data_by_model records = []) := by
  refine ⟨?_, by decide, ?_⟩
  · intro records m c
    simp only [count_data_by_model]
    rw [List.mem_insertionSort, List.mem_map]
    constructor
    · rintro ⟨x, hx, he⟩
      injection he with he1 he2
      subst he1
      subst he2
      have hxm : x ∈ (records.map
          (fun r : MatchedRecord => r.model_name)).filter
            (fun s => decide (s ≠ "")) := List.mem_dedup.mp hx
      have hxp := List.of_mem_filter hxm
      have hne : x ≠ "" := of_decide_eq_true hxp
      refine ⟨hne, ?_, ?_⟩
      · exact List.count_pos_iff.mpr hxm
      · have hcf : List.count x ((records.map
            (fun r : MatchedRecord => r.model_name)).filter
              (fun s => decide (s ≠ ""))) =
            List.count x (records.map (fun r : MatchedRecord => r.model_name)) :=
          List.count_filter hxp
        exact hcf
    · rintro ⟨hne, hpos, hc⟩
      have hcnt : ((records.map
          (fun r : MatchedRecord => r.model_name)).filter
            (fun s => decide (s ≠ ""))).count m =
          (records.map (fun r : MatchedRecord => r.model_name)).count m :=
        List.count_filter (by simpa using hne)
      refine ⟨m, ?_, ?_⟩
      · rw [List.mem_dedup]
        apply List.count_pos_iff.mp
        rw [hcnt]
        omega
      · rw [hcnt, ← hc]
  · intro records h
    simp only [count_data_by_model]
    have hnil : (records.map
        (fun r : MatchedRecord => r.model_name)).filter
          (fun s => decide (s ≠ "")) = [] := by
      rw [List.filter_eq_nil_iff]
      intro a ha
      rcases List.mem_map.mp ha with ⟨r, hr, rfl⟩
      simp [h r hr]
    rw [hnil]
    rfl

/-- Witness for C4: a source whose records all have the empty model
aggregates to the empty table. -/
theorem aggregator_empty_witness :
    (∀ r ∈ [(⟨"p", "h", ""⟩ : MatchedRecord)], r.model_name = "") ∧
    count_data_by_model [⟨"p", "h", ""⟩] = [] :=
  ⟨by decide, aggregator_counts_and_drops_empty.2.2 _ (by decide)⟩

/-- Claim C9: the counts in the frequency table sum to at most the
number of input records, with equality exactly when no record is
unmatched, and the table has no entry for the empty model. -/
theorem aggregator_sum_le_records (records : List MatchedRecord) :
    ((count_data_by_model records).map Prod.snd).sum ≤ records.length ∧
    (((count_data_by_model records).map Prod.snd).sum = records.length ↔
      ∀ r ∈ records, r.model_name ≠ "") ∧
    (∀ e ∈ count_data_by_model records, e.1 ≠ "") := by
  have hperm : List.Perm
      ((count_data_by_model records).map Prod.snd)
      ((((records.map (fun r : MatchedRecord => r.model_name)).filter
            (fun s => decide (s ≠ ""))).dedup.map
          (fun x => (x, ((records.map
            (fun r : MatchedRecord => r.model_name)).filter
              (fun s => decide (s ≠ ""))).count x))).map Prod.snd) :=
    List.Perm.map _ (List.perm_insertionSort _ _)
  rw [List.map_map] at hperm
  have hsum : ((count_data_by_model records).map Prod.snd).sum =
      ((records.map (fun r : MatchedRecord => r.model_name)).filter
        (fun s => decide (s ≠ ""))).length := by
    rw [hperm.sum_eq]
    exact sum_map_count_dedup _
  have hlen : ((records.map (fun r : MatchedRecord => r.model_name)).filter
      (fun s => decide (s ≠ ""))).length ≤ records.length := by
    have := List.length_filter_le (fun s => decide (s ≠ ""))
      (records.map (fun r : MatchedRecord => r.model_name))
    rwa [List.length_map] at this
  refine ⟨by rw [hsum]; exact hlen, ?_, ?_⟩
  · rw [hsum]
    have hlf := length_filter_eq_length_iff (fun s => decide (s ≠ ""))
      (records.map (fun r : MatchedRecord => r.model_name))
    rw [List.length_map] at hlf
    rw [hlf]
    constructor
    · intro hall r hr
      exact of_decide_eq_true
        (hall r.model_name (List.mem_map_of_mem _ hr))
    · intro hall a ha
      rcases List.mem_map.mp ha with ⟨r, hr, rfl⟩
      exact decide_eq_true (hall r hr)
  · intro e he
    have he2 : e ∈ ((records.map (fun r : MatchedRecord => r.model_name)).filter
        (fun s => decide (s ≠ ""))).dedup.map
          (fun x => (x, ((records.map
            (fun r : MatchedRecord => r.model_name)).filter
              (fun s => decide (s ≠ ""))).count x)) :=
      (List.mem_insertionSort _).mp he
    rcases List.mem_map.mp he2 with ⟨x, hx, rfl⟩
    have hx2 : x ∈ (records.map (fun r : MatchedRecord => r.model_name)).filter
        (fun s => decide (s ≠ "")) := List.mem_dedup.mp hx
    have hxp := List.of_mem_filter hx2
    exact of_decide_eq_true hxp

/-- Witness for C9 at a concrete mixed input. -/
theorem aggregator_sum_witness :
    ((count_data_by_model [⟨"p1", "h1", "A"⟩, ⟨"p2", "h2", ""⟩]).map
        Prod.snd).sum ≤ 2 ∧
    (((count_data_by_model [⟨"p1", "h1", "A"⟩, ⟨"p2", "h2", ""⟩]).map
        Prod.snd).sum = 2 ↔
      ∀ r ∈ [(⟨"p1", "h1", "A"⟩ : MatchedRecord), ⟨"p2", "h2", ""⟩],
        r.model_name ≠ "") ∧
    (∀ e ∈ count_data_by_model [⟨"p1", "h1", "A"⟩, ⟨"p2", "h2", ""⟩],
        e.1 ≠ "") :=
  aggregator_sum_le_records [⟨"p1", "h1", "A"⟩, ⟨"p2", "h2", ""⟩]

/-- Claim C6: both the frequency tables and the rate report are
non-decreasing by model name on adjacent entries. -/
theorem outputs_sorted_by_model :
    (∀ records : List MatchedRecord,
        List.Chain' (fun a b : String × Nat => a.1 ≤ b.1)
          (count_data_by_model records)) ∧
    (∀ cc ai : List (String × Nat),
        List.Chain' (fun r1 r2 : RateRow => r1.model_name ≤ r2.model_name)
          (calculate_order_success_rate cc ai)) := by
  constructor
  · intro records
    exact List.Pairwise.chain' (List.sorted_insertionSort _ _)
  · intro cc ai
    exact List.Pairwise.chain' (List.sorted_insertionSort _ _)

end ModelStats
